import Mathlib

/-!
Verification of the SSTable storage layer of the hummock state store
(file src/storage/src/hummock/sstable_store.rs).

The shallow embedding models the facade SstableStore and its two public
operations put and get as pure functions over an explicit block-cache state,
a metrics counter, and an object-store behaviour oracle.  External
collaborators that the facade only calls through an interface - the object
store trait, the block codec Block::decode, the block cache, and the
SstableMeta codec - are not part of the provided sources; they are either
taken as parameters (the decode function, the store behaviour) or modelled
from the specification text, as noted on each definition.

Machine integers of the source (u64 ids and offsets, u32 lengths) are
modelled as Nat; the validity predicates record the bit-width bounds where
a claim needs them.  Byte strings are lists of Nat below 256.
-/

/-! ## Decimal digit strings

Support for reasoning about the path templates, which embed a u64 id in
decimal via the Display formatting of the source (format with no flags).
sdigits is a structurally transparent description of Nat.toDigits base 10,
proved equal to it below and then injective via a parse-back function. -/

/-- Most-significant-first decimal digit characters of a natural number,
mirroring the output of Nat.toDigits 10. -/
def sdigits (n : Nat) : List Char :=
  if n < 10 then [Nat.digitChar n] else sdigits (n / 10) ++ [Nat.digitChar (n % 10)]
decreasing_by exact Nat.div_lt_self (by omega) (by omega)

theorem toDigitsCore_eq_sdigits (fuel n : Nat) (ds : List Char) (h : n < fuel) :
    Nat.toDigitsCore 10 fuel n ds = sdigits n ++ ds := by
  induction fuel generalizing n ds with
  | zero => omega
  | succ fuel ih =>
    rw [Nat.toDigitsCore]
    by_cases h10 : n / 10 = 0
    · have hn : n < 10 := by omega
      simp only [h10, if_pos]
      rw [sdigits, if_pos hn, Nat.mod_eq_of_lt hn]
      rfl
    · rw [if_neg h10,
        ih (n / 10) _ (by
          have := Nat.div_lt_self (by omega : 0 < n) (by omega : 1 < 10); omega)]
      conv_rhs => rw [sdigits]
      have hge : ¬ n < 10 := by omega
      rw [if_neg hge, List.append_assoc]
      rfl

theorem toDigits_eq_sdigits (n : Nat) : Nat.toDigits 10 n = sdigits n := by
  rw [Nat.toDigits, toDigitsCore_eq_sdigits n.succ n [] (Nat.lt_succ_self n),
    List.append_nil]

/-- Numeric value of a decimal digit character; 10 on non-digits. -/
def charDigitVal (c : Char) : Nat :=
  if c = '0' then 0 else if c = '1' then 1 else if c = '2' then 2 else
  if c = '3' then 3 else if c = '4' then 4 else if c = '5' then 5 else
  if c = '6' then 6 else if c = '7' then 7 else if c = '8' then 8 else
  if c = '9' then 9 else 10

theorem charDigitVal_digitChar : ∀ n < 10, charDigitVal (Nat.digitChar n) = n := by decide

theorem parse_sdigits (n : Nat) : ∀ a : Nat,
    (sdigits n).foldl (fun acc c => 10 * acc + charDigitVal c) a
      = a * 10 ^ (sdigits n).length + n := by
  induction n using sdigits.induct with
  | case1 n hn =>
    intro a
    rw [sdigits, if_pos hn]
    simp [charDigitVal_digitChar n hn]
    ring
  | case2 n hn ih =>
    intro a
    rw [sdigits, if_neg hn]
    rw [List.foldl_append, ih a]
    simp [charDigitVal_digitChar (n % 10) (Nat.mod_lt n (by omega))]
    have hd := Nat.div_add_mod n 10
    rw [Nat.pow_succ]
    ring_nf
    omega

theorem sdigits_injective (m n : Nat) (h : sdigits m = sdigits n) : m = n := by
  have hm := parse_sdigits m 0
  have hn := parse_sdigits n 0
  rw [h] at hm
  omega

theorem toString_nat_data (n : Nat) : (toString n).data = sdigits n := by
  show ((Nat.toDigits 10 n).asString).data = sdigits n
  rw [toDigits_eq_sdigits]
  rfl

/-! ## Data model -/

/-- Byte strings are modelled as lists of naturals; validity predicates add
the bound 256 where a claim depends on it. -/
abbrev Bytes := List Nat

/-- Record describing the position of one block inside the data object,
from the source structure referenced by SstableStore (offset is u64,
len is u32 in the source). -/
structure BlockMeta where
  offset : Nat
  len : Nat
deriving DecidableEq

/-- Modelled from the spec: SstableMeta is an ordered sequence of BlockMeta
in block-index order plus opaque footer fields (first and last keys and an
estimated size); the defining Rust module is not among the provided sources,
only its use sites in sstable_store.rs are. -/
structure SstableMeta where
  block_metas : List BlockMeta
  smallest_key : Bytes
  largest_key : Bytes
  estimated_size : Nat
deriving DecidableEq

/-- Value pairing an id with its meta, as in the source. -/
structure Sstable where
  id : Nat
  meta : SstableMeta
deriving DecidableEq

/-- Cache policy enum from the source. -/
inductive CachePolicy
  | Disable
  | Fill
  | NotFill
deriving DecidableEq

/-- Modelled from the spec: a decoded block is an opaque value; the block
codec module is not among the provided sources.  The storage layer treats
blocks as abstract shared values, so the carrier is a wrapper on bytes and
the decode function is a parameter of the operations below. -/
structure Block where
  data : Bytes
deriving DecidableEq

/-- Error kinds of the storage layer that the modelled operations can
surface, following the source error constructors used in
sstable_store.rs (object IO wrapping and invalid-block). -/
inductive HummockError
  | ObjectIoError (e : String)
  | InvalidBlock
deriving DecidableEq

def exceptToSum {ε α : Type} : Except ε α → ε ⊕ α
  | Except.error e => Sum.inl e
  | Except.ok a => Sum.inr a

instance {ε α : Type} [DecidableEq ε] [DecidableEq α] : DecidableEq (Except ε α) :=
  fun a b =>
    decidable_of_iff (exceptToSum a = exceptToSum b)
      (by cases a <;> cases b <;> simp [exceptToSum])

/-- Byte range of a ranged object-store read, from the source. -/
structure BlockLocation where
  offset : Nat
  size : Nat
deriving DecidableEq

/-- Observable object-store operation issued by the storage layer; the
trace of these operations is part of the result of every modelled call. -/
inductive StoreOp
  | upload (path : String) (data : Bytes)
  | read (path : String) (loc : Option BlockLocation)
  | delete (path : String)
deriving DecidableEq

/-- Behaviour oracle for the external object store: for each operation it
answers success (none) or an opaque error string (some), and for reads the
returned bytes.  The object store is an external collaborator of the layer
per the spec, accessed only through upload, read and delete here. -/
structure StoreBehavior where
  uploadResult : String → Bytes → Option String
  readResult : String → Option BlockLocation → Except String Bytes
  deleteResult : String → Option String

/-- The facade state that the modelled operations need: the configured path
prefix (field path in the source). -/
structure SstableStore where
  path : String

def SstableStore.get_sst_meta_path (s : SstableStore) (sst_id : Nat) : String :=
  s.path ++ "/" ++ toString sst_id ++ ".meta"

def SstableStore.get_sst_data_path (s : SstableStore) (sst_id : Nat) : String :=
  s.path ++ "/" ++ toString sst_id ++ ".data"

/-! ## SstableMeta codec

Modelled from the spec: the codec module is not among the provided sources.
The spec fixes only the shape (ordered block metas plus footer fields) and
the round-trip law, so the wire format below is a straightforward
little-endian, length-prefixed serialization honouring the source field
widths (u32 counts and lengths, u64 offsets and sizes). -/

/-- Little-endian fixed-width encoding of a natural into w bytes. -/
def encodeLE : Nat → Nat → Bytes
  | 0, _ => []
  | w + 1, n => n % 256 :: encodeLE w (n / 256)

/-- Value of a little-endian byte list. -/
def decodeLEList : Bytes → Nat
  | [] => 0
  | b :: rest => b + 256 * decodeLEList rest

/-- Consume w bytes from the front and return their value and the rest. -/
def readLE (w : Nat) (bs : Bytes) : Option (Nat × Bytes) :=
  if w ≤ bs.length then some (decodeLEList (bs.take w), bs.drop w) else none

def BlockMeta.encode (bm : BlockMeta) : Bytes :=
  encodeLE 8 bm.offset ++ encodeLE 4 bm.len

def readBlockMeta (bs : Bytes) : Option (BlockMeta × Bytes) := do
  let (offset, bs) ← readLE 8 bs
  let (len, bs) ← readLE 4 bs
  some (⟨offset, len⟩, bs)

def readBlockMetas : Nat → Bytes → Option (List BlockMeta × Bytes)
  | 0, bs => some ([], bs)
  | n + 1, bs => do
    let (bm, bs) ← readBlockMeta bs
    let (bms, bs) ← readBlockMetas n bs
    some (bm :: bms, bs)

/-- Length-prefixed key field. -/
def encodeKey (k : Bytes) : Bytes := encodeLE 4 k.length ++ k

def readKey (bs : Bytes) : Option (Bytes × Bytes) := do
  let (len, bs) ← readLE 4 bs
  if len ≤ bs.length then some (bs.take len, bs.drop len) else none

def SstableMeta.encode_to_bytes (m : SstableMeta) : Bytes :=
  encodeLE 4 m.block_metas.length
    ++ (m.block_metas.map BlockMeta.encode).flatten
    ++ encodeKey m.smallest_key
    ++ encodeKey m.largest_key
    ++ encodeLE 8 m.estimated_size

def SstableMeta.decode (bs : Bytes) : Option SstableMeta := do
  let (cnt, bs) ← readLE 4 bs
  let (bms, bs) ← readBlockMetas cnt bs
  let (sk, bs) ← readKey bs
  let (lk, bs) ← readKey bs
  let (es, bs) ← readLE 8 bs
  if bs.isEmpty then some ⟨bms, sk, lk, es⟩ else none

/-- Field-width validity of a block meta (u64 offset, u32 len). -/
def BlockMeta.valid (bm : BlockMeta) : Prop :=
  bm.offset < 2 ^ 64 ∧ bm.len < 2 ^ 32

instance (bm : BlockMeta) : Decidable bm.valid := by
  unfold BlockMeta.valid; infer_instance

/-- Validity of a meta value: all counts and fields fit their source widths
and key bytes are bytes. -/
def SstableMeta.valid (m : SstableMeta) : Prop :=
  m.block_metas.length < 2 ^ 32
    ∧ (∀ bm ∈ m.block_metas, bm.valid)
    ∧ m.smallest_key.length < 2 ^ 32
    ∧ (∀ b ∈ m.smallest_key, b < 256)
    ∧ m.largest_key.length < 2 ^ 32
    ∧ (∀ b ∈ m.largest_key, b < 256)
    ∧ m.estimated_size < 2 ^ 64

instance (m : SstableMeta) : Decidable m.valid := by
  unfold SstableMeta.valid; infer_instance

/-! ## Block cache

Modelled from the spec: the BlockCache module is not among the provided
sources.  Spec section 4.3 fixes a map keyed by the pair of sst id and
block index with non-blocking get, unconditional insert, and a
get-or-insert-with combinator that installs successful fetches and does not
cache errors.  The sequential semantics below reflects that; capacity and
eviction are out of scope of the claims. -/

abbrev BlockCacheState := List ((Nat × Nat) × Block)

def BlockCache.get (c : BlockCacheState) (sst_id block_idx : Nat) : Option Block :=
  (c.find? (fun e => e.1 == (sst_id, block_idx))).map Prod.snd

def BlockCache.insert (c : BlockCacheState) (sst_id block_idx : Nat) (b : Block) :
    BlockCacheState :=
  ((sst_id, block_idx), b) :: c

/-- Modelled from the spec: sequential semantics of get-or-insert-with; the
fetch argument carries the would-be result together with the store
operations the fetch would issue, and is consulted only on a miss. -/
def BlockCache.get_or_insert_with (c : BlockCacheState) (sst_id block_idx : Nat)
    (fetch : Except HummockError Block × List StoreOp) :
    Except HummockError Block × List StoreOp × BlockCacheState :=
  match BlockCache.get c sst_id block_idx with
  | some b => (Except.ok b, [], c)
  | none =>
    match fetch with
    | (Except.ok b, ops) => (Except.ok b, ops, BlockCache.insert c sst_id block_idx b)
    | (Except.error e, ops) => (Except.error e, ops, c)

/-! ## put -/

/-- Outcome of a put call; panicked models the unwrap in the Fill path of
the source (and the slice panic of Bytes when a range exceeds the data). -/
inductive PutOutcome
  | ok (n : Nat)
  | err (e : HummockError)
  | panicked
deriving DecidableEq

structure PutOut where
  outcome : PutOutcome
  ops : List StoreOp
  cache : BlockCacheState
deriving DecidableEq

/-- Byte slice data[offset .. offset + len] of the source, as take after
drop; the in-range check is made by the caller, matching the panic of
Bytes.slice on an out-of-range request. -/
def sliceBytes (data : Bytes) (offset len : Nat) : Bytes :=
  (data.drop offset).take len

/-- Fill-path loop of put: for each block meta in order, slice the data
bytes, decode, and insert into the block cache; the boolean is false when a
slice is out of range or fails to decode, which the source turns into a
panic (unwrap).  Returns the cache as built up to that point. -/
def add_block_cache_loop (dec : Bytes → Option Block) (sst_id : Nat) (data : Bytes) :
    List BlockMeta → Nat → BlockCacheState → BlockCacheState × Bool
  | [], _, c => (c, true)
  | bm :: rest, idx, c =>
    if bm.offset + bm.len ≤ data.length then
      match dec (sliceBytes data bm.offset bm.len) with
      | some b =>
          add_block_cache_loop dec sst_id data rest (idx + 1)
            (BlockCache.insert c sst_id idx b)
      | none => (c, false)
    else (c, false)

/-- Model of SstableStore::put.  Mirrors the source control flow: upload the
data object, then the encoded meta object; on meta failure delete the data
object, where a delete failure is itself propagated by the question-mark
operator before the meta error is reached; on success seed the block cache
when the policy is Fill; return the data byte length. -/
def SstableStore.put (s : SstableStore) (beh : StoreBehavior)
    (dec : Bytes → Option Block) (sst : Sstable) (data : Bytes)
    (policy : CachePolicy) (cache : BlockCacheState) : PutOut :=
  let data_path := s.get_sst_data_path sst.id
  match beh.uploadResult data_path data with
  | some e => ⟨PutOutcome.err (HummockError.ObjectIoError e),
      [StoreOp.upload data_path data], cache⟩
  | none =>
    let meta_path := s.get_sst_meta_path sst.id
    let meta_bytes := sst.meta.encode_to_bytes
    match beh.uploadResult meta_path meta_bytes with
    | some e =>
      match beh.deleteResult data_path with
      | some de => ⟨PutOutcome.err (HummockError.ObjectIoError de),
          [StoreOp.upload data_path data, StoreOp.upload meta_path meta_bytes,
            StoreOp.delete data_path], cache⟩
      | none => ⟨PutOutcome.err (HummockError.ObjectIoError e),
          [StoreOp.upload data_path data, StoreOp.upload meta_path meta_bytes,
            StoreOp.delete data_path], cache⟩
    | none =>
      match policy with
      | CachePolicy.Fill =>
        match add_block_cache_loop dec sst.id data sst.meta.block_metas 0 cache with
        | (c2, true) => ⟨PutOutcome.ok data.length,
            [StoreOp.upload data_path data, StoreOp.upload meta_path meta_bytes], c2⟩
        | (c2, false) => ⟨PutOutcome.panicked,
            [StoreOp.upload data_path data, StoreOp.upload meta_path meta_bytes], c2⟩
      | _ => ⟨PutOutcome.ok data.length,
          [StoreOp.upload data_path data, StoreOp.upload meta_path meta_bytes], cache⟩

/-! ## get -/

structure GetOut where
  result : Except HummockError Block
  ops : List StoreOp
  cache : BlockCacheState
  counter : Nat
deriving DecidableEq

/-- Model of the fetch closure inside SstableStore::get: resolve the block
meta (out of range is the invalid-block error, issuing no read), issue a
ranged read at the meta offset and length, and decode the returned bytes
(a decode failure surfaces as the invalid-block error per the spec error
taxonomy). -/
def fetch_block (s : SstableStore) (beh : StoreBehavior)
    (dec : Bytes → Option Block) (sst : Sstable) (block_index : Nat) :
    Except HummockError Block × List StoreOp :=
  match sst.meta.block_metas.get? block_index with
  | none => (Except.error HummockError.InvalidBlock, [])
  | some block_meta =>
    let block_loc : BlockLocation := ⟨block_meta.offset, block_meta.len⟩
    let data_path := s.get_sst_data_path sst.id
    match beh.readResult data_path (some block_loc) with
    | Except.error e => (Except.error (HummockError.ObjectIoError e),
        [StoreOp.read data_path (some block_loc)])
    | Except.ok block_data =>
      match dec block_data with
      | none => (Except.error HummockError.InvalidBlock,
          [StoreOp.read data_path (some block_loc)])
      | some block => (Except.ok block, [StoreOp.read data_path (some block_loc)])

/-- Model of SstableStore::get.  The request counter is incremented at
entry as in the source; the policy then selects between get-or-insert-with,
a plain lookup with an uninstalled fetch on miss, and a cache bypass. -/
def SstableStore.get (s : SstableStore) (beh : StoreBehavior)
    (dec : Bytes → Option Block) (sst : Sstable) (block_index : Nat)
    (policy : CachePolicy) (cache : BlockCacheState) (counter : Nat) : GetOut :=
  let rc : Except HummockError Block × List StoreOp × BlockCacheState :=
    match policy with
    | CachePolicy.Fill =>
      BlockCache.get_or_insert_with cache sst.id block_index
        (fetch_block s beh dec sst block_index)
    | CachePolicy.NotFill =>
      match BlockCache.get cache sst.id block_index with
      | some block => (Except.ok block, [], cache)
      | none =>
        match fetch_block s beh dec sst block_index with
        | (r, ops) => (r, ops, cache)
    | CachePolicy.Disable =>
      match fetch_block s beh dec sst block_index with
      | (r, ops) => (r, ops, cache)
  ⟨rc.1, rc.2.1, rc.2.2, counter + 1⟩

/-! ## Codec round-trip lemmas -/

theorem encodeLE_length (w n : Nat) : (encodeLE w n).length = w := by
  induction w generalizing n with
  | zero => rfl
  | succ w ih => simp [encodeLE, ih]

theorem decodeLEList_encodeLE (w n : Nat) (h : n < 256 ^ w) :
    decodeLEList (encodeLE w n) = n := by
  induction w generalizing n with
  | zero =>
    have : n = 0 := by simpa using h
    simp [this, encodeLE, decodeLEList]
  | succ w ih =>
    have hdiv : n / 256 < 256 ^ w := by
      apply Nat.div_lt_of_lt_mul
      rw [Nat.pow_succ, Nat.mul_comm] at h
      exact h
    simp [encodeLE, decodeLEList, ih (n / 256) hdiv]
    exact Nat.mod_add_div n 256

theorem readLE_encodeLE (w n : Nat) (rest : Bytes) (h : n < 256 ^ w) :
    readLE w (encodeLE w n ++ rest) = some (n, rest) := by
  have hl : (encodeLE w n).length = w := encodeLE_length w n
  rw [readLE, if_pos (by simp [hl])]
  rw [List.take_left' hl, List.drop_left' hl, decodeLEList_encodeLE w n h]

theorem readBlockMeta_encode (bm : BlockMeta) (rest : Bytes) (h : bm.valid) :
    readBlockMeta (bm.encode ++ rest) = some (bm, rest) := by
  obtain ⟨h1, h2⟩ := h
  rw [BlockMeta.encode, List.append_assoc, readBlockMeta]
  rw [readLE_encodeLE 8 bm.offset _ (by norm_num at h1 ⊢; omega)]
  simp only [Option.bind_eq_bind, Option.some_bind]
  rw [readLE_encodeLE 4 bm.len rest (by norm_num at h2 ⊢; omega)]
  rfl

theorem readBlockMetas_encode (l : List BlockMeta) (rest : Bytes)
    (h : ∀ bm ∈ l, bm.valid) :
    readBlockMetas l.length ((l.map BlockMeta.encode).flatten ++ rest)
      = some (l, rest) := by
  induction l with
  | nil => rfl
  | cons bm l ih =>
    simp only [List.map_cons, List.flatten_cons, List.length_cons, List.append_assoc]
    rw [readBlockMetas]
    rw [readBlockMeta_encode bm _ (h bm (by simp))]
    simp only [Option.bind_eq_bind, Option.some_bind]
    rw [ih (fun b hb => h b (by simp [hb]))]
    rfl

theorem readKey_encodeKey (k : Bytes) (rest : Bytes) (h : k.length < 2 ^ 32) :
    readKey (encodeKey k ++ rest) = some (k, rest) := by
  rw [encodeKey, List.append_assoc, readKey]
  rw [readLE_encodeLE 4 k.length (k ++ rest) (by norm_num at h ⊢; omega)]
  simp only [Option.bind_eq_bind, Option.some_bind]
  rw [if_pos (by simp)]
  rw [List.take_left, List.drop_left]

/-! ## Block cache lemmas -/

theorem BlockCache.get_insert_self (c : BlockCacheState) (k i : Nat) (b : Block) :
    BlockCache.get (BlockCache.insert c k i b) k i = some b := by
  simp [BlockCache.get, BlockCache.insert, List.find?]

theorem BlockCache.get_insert_ne (c : BlockCacheState) (k i x y : Nat) (b : Block)
    (h : ¬ (k = x ∧ i = y)) :
    BlockCache.get (BlockCache.insert c k i b) x y = BlockCache.get c x y := by
  simp only [BlockCache.get, BlockCache.insert]
  rw [List.find?_cons_of_neg]
  simp only [beq_iff_eq, Prod.mk.injEq]
  exact h

/-! ## Round trip of the meta codec (claim C5) -/

/-- C5: for every valid SstableMeta value m, decoding the bytes produced by
encoding m yields m back: decode (encode_to_bytes m) = some m. -/
theorem C5_sstable_meta_roundtrip (m : SstableMeta) (h : m.valid) :
    SstableMeta.decode m.encode_to_bytes = some m := by
  obtain ⟨bms, sk, lk, es⟩ := m
  obtain ⟨h1, h2, h3, h4, h5, h6, h7⟩ := h
  simp only [SstableMeta.encode_to_bytes, SstableMeta.decode, List.append_assoc]
  rw [readLE_encodeLE 4 bms.length _ (by norm_num at h1 ⊢; omega)]
  simp only [Option.bind_eq_bind, Option.some_bind]
  rw [readBlockMetas_encode bms _ h2]
  simp only [Option.some_bind]
  rw [readKey_encodeKey sk _ h3]
  simp only [Option.some_bind]
  rw [readKey_encodeKey lk _ h5]
  simp only [Option.some_bind]
  have h8 : readLE 8 (encodeLE 8 es) = some (es, []) := by
    conv_lhs => rw [← List.append_nil (encodeLE 8 es)]
    exact readLE_encodeLE 8 es [] (by norm_num at h7 ⊢; omega)
  rw [h8]
  rfl

/-- Witness for C5 at a concrete meta value. -/
theorem C5_sstable_meta_roundtrip_witness :
    SstableMeta.valid ⟨[⟨5, 7⟩, ⟨12, 3⟩], [1, 2], [3], 42⟩
      ∧ SstableMeta.decode
          (SstableMeta.encode_to_bytes ⟨[⟨5, 7⟩, ⟨12, 3⟩], [1, 2], [3], 42⟩)
        = some ⟨[⟨5, 7⟩, ⟨12, 3⟩], [1, 2], [3], 42⟩ :=
  ⟨by decide, C5_sstable_meta_roundtrip ⟨[⟨5, 7⟩, ⟨12, 3⟩], [1, 2], [3], 42⟩ (by decide)⟩

/-! ## Fill-loop lemmas (claim C9) -/

theorem add_block_cache_loop_get_lt (dec : Bytes → Option Block) (sst_id : Nat)
    (data : Bytes) :
    ∀ (metas : List BlockMeta) (start : Nat) (c : BlockCacheState) (k : Nat),
      k < start →
      BlockCache.get (add_block_cache_loop dec sst_id data metas start c).1 sst_id k
        = BlockCache.get c sst_id k := by
  intro metas
  induction metas with
  | nil => intro start c k hk; rfl
  | cons bm rest ih =>
    intro start c k hk
    rw [add_block_cache_loop]
    by_cases hr : bm.offset + bm.len ≤ data.length
    · rw [if_pos hr]
      cases hdec : dec (sliceBytes data bm.offset bm.len) with
      | some b =>
        rw [ih (start + 1) _ k (by omega)]
        exact BlockCache.get_insert_ne c sst_id start sst_id k b (by omega)
      | none => rfl
    · rw [if_neg hr]

theorem add_block_cache_loop_ok (dec : Bytes → Option Block) (sst_id : Nat)
    (data : Bytes) :
    ∀ (metas : List BlockMeta) (start : Nat) (c : BlockCacheState),
      (∀ bm ∈ metas, bm.offset + bm.len ≤ data.length
          ∧ (dec (sliceBytes data bm.offset bm.len)).isSome) →
      (add_block_cache_loop dec sst_id data metas start c).2 = true
      ∧ ∀ i (hi : i < metas.length),
          BlockCache.get (add_block_cache_loop dec sst_id data metas start c).1
              sst_id (start + i)
            = dec (sliceBytes data (metas.get ⟨i, hi⟩).offset (metas.get ⟨i, hi⟩).len) := by
  intro metas
  induction metas with
  | nil =>
    intro start c _
    exact ⟨rfl, fun i hi => absurd hi (by simp)⟩
  | cons bm rest ih =>
    intro start c h
    obtain ⟨hr, hs⟩ := h bm (by simp)
    obtain ⟨b, hdec⟩ := Option.isSome_iff_exists.mp hs
    rw [add_block_cache_loop, if_pos hr, hdec]
    obtain ⟨ihok, ihget⟩ :=
      ih (start + 1) (BlockCache.insert c sst_id start b)
        (fun x hx => h x (by simp [hx]))
    refine ⟨ihok, ?_⟩
    intro i hi
    cases i with
    | zero =>
      have hlt := add_block_cache_loop_get_lt dec sst_id data rest (start + 1)
        (BlockCache.insert c sst_id start b) start (by omega)
      simp only [List.get, Nat.add_zero]
      rw [hlt, BlockCache.get_insert_self, hdec]
    | succ j =>
      have hj : j < rest.length := by simpa using hi
      have := ihget j hj
      rw [show start + (j + 1) = start + 1 + j by omega]
      simpa using this

theorem add_block_cache_loop_bad (dec : Bytes → Option Block) (sst_id : Nat)
    (data : Bytes) :
    ∀ (metas : List BlockMeta) (start : Nat) (c : BlockCacheState),
      (∃ bm ∈ metas, ¬ (bm.offset + bm.len ≤ data.length
          ∧ (dec (sliceBytes data bm.offset bm.len)).isSome)) →
      (add_block_cache_loop dec sst_id data metas start c).2 = false := by
  intro metas
  induction metas with
  | nil => intro start c h; simp at h
  | cons bm rest ih =>
    intro start c h
    rw [add_block_cache_loop]
    by_cases hr : bm.offset + bm.len ≤ data.length
    · rw [if_pos hr]
      cases hdec : dec (sliceBytes data bm.offset bm.len) with
      | some b =>
        apply ih (start + 1)
        obtain ⟨x, hx, hbad⟩ := h
        rcases List.mem_cons.mp hx with hx | hx
        · subst hx
          exact absurd ⟨hr, by rw [hdec]; rfl⟩ hbad
        · exact ⟨x, hx, hbad⟩
      | none => rfl
    · rw [if_neg hr]

/-! ## Claims about put (C1, C2, C9) -/

/-- C1 (amended): when the data upload succeeds and the meta upload fails,
put attempts delete of the data object and returns an ObjectIoError; the
wrapped error is the meta upload error when the delete succeeds, but the
delete error when the delete itself fails, because the source propagates
the delete failure with the question-mark operator before reaching the
meta error.  The cache is untouched either way. -/
theorem C1_put_meta_failure_rollback (s : SstableStore) (beh : StoreBehavior)
    (dec : Bytes → Option Block) (sst : Sstable) (data : Bytes)
    (policy : CachePolicy) (cache : BlockCacheState) (e : String)
    (hd : beh.uploadResult (s.get_sst_data_path sst.id) data = none)
    (hm : beh.uploadResult (s.get_sst_meta_path sst.id) sst.meta.encode_to_bytes
        = some e) :
    s.put beh dec sst data policy cache
      = ⟨PutOutcome.err (HummockError.ObjectIoError
            ((beh.deleteResult (s.get_sst_data_path sst.id)).getD e)),
         [StoreOp.upload (s.get_sst_data_path sst.id) data,
          StoreOp.upload (s.get_sst_meta_path sst.id) sst.meta.encode_to_bytes,
          StoreOp.delete (s.get_sst_data_path sst.id)],
         cache⟩ := by
  cases hdel : beh.deleteResult (s.get_sst_data_path sst.id) with
  | none => simp [SstableStore.put, hd, hm, hdel]
  | some de => simp [SstableStore.put, hd, hm, hdel]

/-- Witness for C1 at concrete inputs where the delete also fails: the
returned error wraps the delete error. -/
theorem C1_put_meta_failure_rollback_witness :
    SstableStore.put ⟨"hummock"⟩
        ⟨fun p _ => if p = "hummock/7.meta" then some "metaerr" else none,
         fun _ _ => Except.error "unused", fun _ => some "delerr"⟩
        (fun _ => none) ⟨7, ⟨[], [], [], 0⟩⟩ [1, 2] CachePolicy.NotFill []
      = ⟨PutOutcome.err (HummockError.ObjectIoError "delerr"),
         [StoreOp.upload "hummock/7.data" [1, 2],
          StoreOp.upload "hummock/7.meta" (SstableMeta.encode_to_bytes ⟨[], [], [], 0⟩),
          StoreOp.delete "hummock/7.data"],
         []⟩ :=
  C1_put_meta_failure_rollback ⟨"hummock"⟩
    ⟨fun p _ => if p = "hummock/7.meta" then some "metaerr" else none,
     fun _ _ => Except.error "unused", fun _ => some "delerr"⟩
    (fun _ => none) ⟨7, ⟨[], [], [], 0⟩⟩ [1, 2] CachePolicy.NotFill [] "metaerr"
    (by decide) (by decide)

/-- Counterexample to C1 as stated: at a concrete input where the rollback
delete fails, put returns the delete error wrapped as ObjectIoError, not
the meta upload error. -/
theorem C1_counterexample :
    (SstableStore.put ⟨"hummock"⟩
        ⟨fun p _ => if p = "hummock/7.meta" then some "metaerr" else none,
         fun _ _ => Except.error "unused", fun _ => some "delerr"⟩
        (fun _ => none) ⟨7, ⟨[], [], [], 0⟩⟩ [1, 2] CachePolicy.NotFill []).outcome
      ≠ PutOutcome.err (HummockError.ObjectIoError "metaerr")
    ∧ (SstableStore.put ⟨"hummock"⟩
        ⟨fun p _ => if p = "hummock/7.meta" then some "metaerr" else none,
         fun _ _ => Except.error "unused", fun _ => some "delerr"⟩
        (fun _ => none) ⟨7, ⟨[], [], [], 0⟩⟩ [1, 2] CachePolicy.NotFill []).outcome
      = PutOutcome.err (HummockError.ObjectIoError "delerr") := by
  constructor <;> decide

/-- C2: put uploads the data bytes to the data path strictly before any
meta upload is attempted; a data-upload failure returns ObjectIoError with
no further store operation and no cache change; and a successful put has
uploaded the encoded meta to the meta path and returns the byte length of
the data. -/
theorem C2_put_write_ordering (s : SstableStore) (beh : StoreBehavior)
    (dec : Bytes → Option Block) (sst : Sstable) (data : Bytes)
    (policy : CachePolicy) (cache : BlockCacheState) :
    (s.put beh dec sst data policy cache).ops.head?
        = some (StoreOp.upload (s.get_sst_data_path sst.id) data)
    ∧ (∀ e, beh.uploadResult (s.get_sst_data_path sst.id) data = some e →
        s.put beh dec sst data policy cache
          = ⟨PutOutcome.err (HummockError.ObjectIoError e),
             [StoreOp.upload (s.get_sst_data_path sst.id) data], cache⟩)
    ∧ (∀ n, (s.put beh dec sst data policy cache).outcome = PutOutcome.ok n →
        n = data.length
        ∧ (s.put beh dec sst data policy cache).ops
            = [StoreOp.upload (s.get_sst_data_path sst.id) data,
               StoreOp.upload (s.get_sst_meta_path sst.id)
                 sst.meta.encode_to_bytes]) := by
  cases hd : beh.uploadResult (s.get_sst_data_path sst.id) data with
  | some e0 =>
    refine ⟨?_, ?_, ?_⟩
    · simp [SstableStore.put, hd]
    · intro e he
      injection he with h1
      subst h1
      simp [SstableStore.put, hd]
    · intro n hn
      simp [SstableStore.put, hd] at hn
  | none =>
    cases hm : beh.uploadResult (s.get_sst_meta_path sst.id) sst.meta.encode_to_bytes with
    | some e0 =>
      cases hdel : beh.deleteResult (s.get_sst_data_path sst.id) with
      | some de =>
        refine ⟨?_, ?_, ?_⟩
        · simp [SstableStore.put, hd, hm, hdel]
        · intro e he; exact Option.noConfusion he
        · intro n hn; simp [SstableStore.put, hd, hm, hdel] at hn
      | none =>
        refine ⟨?_, ?_, ?_⟩
        · simp [SstableStore.put, hd, hm, hdel]
        · intro e he; exact Option.noConfusion he
        · intro n hn; simp [SstableStore.put, hd, hm, hdel] at hn
    | none =>
      cases policy with
      | Fill =>
        rcases hloop : add_block_cache_loop dec sst.id data sst.meta.block_metas 0 cache
          with ⟨c2, ok⟩
        cases ok with
        | true =>
          refine ⟨?_, ?_, ?_⟩
          · simp [SstableStore.put, hd, hm, hloop]
          · intro e he; exact Option.noConfusion he
          · intro n hn
            simp [SstableStore.put, hd, hm, hloop] at hn ⊢
            omega
        | false =>
          refine ⟨?_, ?_, ?_⟩
          · simp [SstableStore.put, hd, hm, hloop]
          · intro e he; exact Option.noConfusion he
          · intro n hn
            simp [SstableStore.put, hd, hm, hloop] at hn
      | Disable =>
        refine ⟨?_, ?_, ?_⟩
        · simp [SstableStore.put, hd, hm]
        · intro e he; exact Option.noConfusion he
        · intro n hn
          simp [SstableStore.put, hd, hm] at hn ⊢
          omega
      | NotFill =>
        refine ⟨?_, ?_, ?_⟩
        · simp [SstableStore.put, hd, hm]
        · intro e he; exact Option.noConfusion he
        · intro n hn
          simp [SstableStore.put, hd, hm] at hn ⊢
          omega

/-- Witness for C2 at a concrete input whose data upload fails. -/
theorem C2_put_write_ordering_witness :
    SstableStore.put ⟨"p"⟩
        ⟨fun _ _ => some "ioerr", fun _ _ => Except.error "unused", fun _ => none⟩
        (fun _ => none) ⟨3, ⟨[], [], [], 0⟩⟩ [5] CachePolicy.Disable []
      = ⟨PutOutcome.err (HummockError.ObjectIoError "ioerr"),
         [StoreOp.upload "p/3.data" [5]], []⟩ :=
  (C2_put_write_ordering ⟨"p"⟩
      ⟨fun _ _ => some "ioerr", fun _ _ => Except.error "unused", fun _ => none⟩
      (fun _ => none) ⟨3, ⟨[], [], [], 0⟩⟩ [5] CachePolicy.Disable []).2.1
    "ioerr" (by decide)

/-- C9: in put with Fill policy after successful uploads, every block meta
has its slice of the data bytes decoded and inserted into the block cache
under its index; any out-of-range slice or decode failure is fatal (the
call panics instead of returning an error); and under the precondition
that every slice is in range and decodes, put does not panic and returns
the data byte length. -/
theorem C9_put_fill_seeds_cache (s : SstableStore) (beh : StoreBehavior)
    (dec : Bytes → Option Block) (sst : Sstable) (data : Bytes)
    (cache : BlockCacheState)
    (hd : beh.uploadResult (s.get_sst_data_path sst.id) data = none)
    (hm : beh.uploadResult (s.get_sst_meta_path sst.id) sst.meta.encode_to_bytes
        = none) :
    ((∀ bm ∈ sst.meta.block_metas, bm.offset + bm.len ≤ data.length
        ∧ (dec (sliceBytes data bm.offset bm.len)).isSome) →
      (s.put beh dec sst data CachePolicy.Fill cache).outcome
          = PutOutcome.ok data.length
      ∧ ∀ i (hi : i < sst.meta.block_metas.length),
          BlockCache.get (s.put beh dec sst data CachePolicy.Fill cache).cache
              sst.id i
            = dec (sliceBytes data (sst.meta.block_metas.get ⟨i, hi⟩).offset
                (sst.meta.block_metas.get ⟨i, hi⟩).len))
    ∧ ((∃ bm ∈ sst.meta.block_metas, ¬ (bm.offset + bm.len ≤ data.length
        ∧ (dec (sliceBytes data bm.offset bm.len)).isSome)) →
      (s.put beh dec sst data CachePolicy.Fill cache).outcome
          = PutOutcome.panicked) := by
  constructor
  · intro hall
    obtain ⟨hok, hget⟩ :=
      add_block_cache_loop_ok dec sst.id data sst.meta.block_metas 0 cache hall
    rcases hloop : add_block_cache_loop dec sst.id data sst.meta.block_metas 0 cache
      with ⟨c2, b⟩
    rw [hloop] at hok
    simp only at hok
    subst hok
    constructor
    · simp [SstableStore.put, hd, hm, hloop]
    · intro i hi
      have hg := hget i hi
      rw [hloop] at hg
      simp only [Nat.zero_add] at hg
      simpa [SstableStore.put, hd, hm, hloop] using hg
  · intro hbad
    have hfalse :=
      add_block_cache_loop_bad dec sst.id data sst.meta.block_metas 0 cache hbad
    rcases hloop : add_block_cache_loop dec sst.id data sst.meta.block_metas 0 cache
      with ⟨c2, b⟩
    rw [hloop] at hfalse
    simp only at hfalse
    subst hfalse
    simp [SstableStore.put, hd, hm, hloop]

/-- Witness for C9 at a concrete input: one block meta covering the first
two of three data bytes, identity-style decode; put succeeds, does not
panic, and the cache holds the decoded slice. -/
theorem C9_put_fill_seeds_cache_witness :
    (SstableStore.put ⟨"p"⟩
        ⟨fun _ _ => none, fun _ _ => Except.error "unused", fun _ => none⟩
        (fun bs => some ⟨bs⟩) ⟨1, ⟨[⟨0, 2⟩], [], [], 0⟩⟩ [1, 2, 3]
        CachePolicy.Fill []).outcome
      = PutOutcome.ok 3 :=
  ((C9_put_fill_seeds_cache ⟨"p"⟩
      ⟨fun _ _ => none, fun _ _ => Except.error "unused", fun _ => none⟩
      (fun bs => some ⟨bs⟩) ⟨1, ⟨[⟨0, 2⟩], [], [], 0⟩⟩ [1, 2, 3] []
      (by decide) (by decide)).1 (by decide)).1

/-! ## Claims about get (C3, C4, C7, C10) -/

/-- C3 (amended): a get whose block index is at or beyond the number of
block metas returns InvalidBlock, issues no store read, and leaves the
cache unchanged, provided the block cache holds no entry for the requested
key; the source performs the bounds check inside the fetch closure, which
a pre-existing cache entry bypasses (see C10). -/
theorem C3_get_out_of_range (s : SstableStore) (beh : StoreBehavior)
    (dec : Bytes → Option Block) (sst : Sstable) (block_index : Nat)
    (policy : CachePolicy) (cache : BlockCacheState) (counter : Nat)
    (hb : sst.meta.block_metas.length ≤ block_index)
    (hc : BlockCache.get cache sst.id block_index = none) :
    s.get beh dec sst block_index policy cache counter
      = ⟨Except.error HummockError.InvalidBlock, [], cache, counter + 1⟩ := by
  have hnone : sst.meta.block_metas[block_index]? = none := by
    rw [← List.get?_eq_getElem?]
    exact List.get?_eq_none.mpr hb
  cases policy <;>
    simp [SstableStore.get, BlockCache.get_or_insert_with, fetch_block, hnone, hc]

/-- Witness for C3: an SSTable with four blocks, request for index 99
against an empty cache under Fill. -/
theorem C3_get_out_of_range_witness :
    SstableStore.get ⟨"p"⟩
        ⟨fun _ _ => none, fun _ _ => Except.error "unused", fun _ => none⟩
        (fun _ => none) ⟨7, ⟨[⟨0, 1⟩, ⟨1, 1⟩, ⟨2, 1⟩, ⟨3, 1⟩], [], [], 0⟩⟩ 99
        CachePolicy.Fill [] 0
      = ⟨Except.error HummockError.InvalidBlock, [], [], 1⟩ :=
  C3_get_out_of_range ⟨"p"⟩
    ⟨fun _ _ => none, fun _ _ => Except.error "unused", fun _ => none⟩
    (fun _ => none) ⟨7, ⟨[⟨0, 1⟩, ⟨1, 1⟩, ⟨2, 1⟩, ⟨3, 1⟩], [], [], 0⟩⟩ 99
    CachePolicy.Fill [] 0 (by decide) (by decide)

/-- Counterexample to C3 as stated: when the cache already holds an entry
for the out-of-range key, get returns that block successfully instead of
InvalidBlock. -/
theorem C3_counterexample :
    (SstableStore.get ⟨"p"⟩
        ⟨fun _ _ => none, fun _ _ => Except.error "unused", fun _ => none⟩
        (fun _ => none) ⟨7, ⟨[], [], [], 0⟩⟩ 99 CachePolicy.Fill
        [((7, 99), ⟨[4]⟩)] 0).result
      ≠ Except.error HummockError.InvalidBlock := by decide

/-- C4: with Disable the block cache is neither read (the result and the
issued operations do not depend on the cache contents) nor written (the
cache state is unchanged); with NotFill the cache state is unchanged, a
hit is returned when present, and on a miss the fetch is performed and its
result returned without being installed; with Fill a successful call
leaves the requested key present in the cache. -/
theorem C4_get_policy_honoring (s : SstableStore) (beh : StoreBehavior)
    (dec : Bytes → Option Block) (sst : Sstable) (block_index : Nat)
    (cache cache2 : BlockCacheState) (counter : Nat) :
    ((s.get beh dec sst block_index CachePolicy.Disable cache counter).cache = cache
      ∧ (s.get beh dec sst block_index CachePolicy.Disable cache counter).result
          = (s.get beh dec sst block_index CachePolicy.Disable cache2 counter).result
      ∧ (s.get beh dec sst block_index CachePolicy.Disable cache counter).ops
          = (s.get beh dec sst block_index CachePolicy.Disable cache2 counter).ops)
    ∧ ((s.get beh dec sst block_index CachePolicy.NotFill cache counter).cache = cache
      ∧ (∀ b, BlockCache.get cache sst.id block_index = some b →
          (s.get beh dec sst block_index CachePolicy.NotFill cache counter).result
            = Except.ok b)
      ∧ (BlockCache.get cache sst.id block_index = none →
          (s.get beh dec sst block_index CachePolicy.NotFill cache counter).result
              = (fetch_block s beh dec sst block_index).1
          ∧ (s.get beh dec sst block_index CachePolicy.NotFill cache counter).ops
              = (fetch_block s beh dec sst block_index).2))
    ∧ (∀ b, (s.get beh dec sst block_index CachePolicy.Fill cache counter).result
          = Except.ok b →
        BlockCache.get (s.get beh dec sst block_index CachePolicy.Fill cache counter).cache
            sst.id block_index = some b) := by
  refine ⟨⟨rfl, rfl, rfl⟩, ⟨?_, ?_, ?_⟩, ?_⟩
  · cases hc : BlockCache.get cache sst.id block_index <;>
      simp [SstableStore.get, hc]
  · intro b hb
    simp [SstableStore.get, hb]
  · intro hmiss
    constructor <;> simp [SstableStore.get, hmiss]
  · intro b hb
    cases hc : BlockCache.get cache sst.id block_index with
    | some b0 =>
      simp [SstableStore.get, BlockCache.get_or_insert_with, hc] at hb ⊢
      exact hb
    | none =>
      rcases hfetch : fetch_block s beh dec sst block_index with ⟨r, ops⟩
      cases r with
      | ok bf =>
        simp [SstableStore.get, BlockCache.get_or_insert_with, hc, hfetch] at hb ⊢
        rw [BlockCache.get_insert_self, hb]
      | error e =>
        simp [SstableStore.get, BlockCache.get_or_insert_with, hc, hfetch] at hb

/-- Witness for C4 at concrete inputs: a NotFill call on a cache holding
the key returns the hit, a NotFill call against an empty cache returns the
fetched block, and a Fill call whose result is that block leaves the key
present. -/
theorem C4_get_policy_honoring_witness :
    (SstableStore.get ⟨"p"⟩
        ⟨fun _ _ => none, fun _ _ => Except.error "unused", fun _ => none⟩
        (fun _ => none) ⟨1, ⟨[], [], [], 0⟩⟩ 0 CachePolicy.NotFill
        [((1, 0), ⟨[7]⟩)] 0).result = Except.ok ⟨[7]⟩
    ∧ (SstableStore.get ⟨"p"⟩
        ⟨fun _ _ => none, fun _ _ => Except.ok [9], fun _ => none⟩
        (fun bs => some ⟨bs⟩) ⟨1, ⟨[⟨0, 1⟩], [], [], 0⟩⟩ 0 CachePolicy.NotFill
        [] 0).result
      = (fetch_block ⟨"p"⟩
          ⟨fun _ _ => none, fun _ _ => Except.ok [9], fun _ => none⟩
          (fun bs => some ⟨bs⟩) ⟨1, ⟨[⟨0, 1⟩], [], [], 0⟩⟩ 0).1
    ∧ BlockCache.get
        (SstableStore.get ⟨"p"⟩
          ⟨fun _ _ => none, fun _ _ => Except.error "unused", fun _ => none⟩
          (fun _ => none) ⟨1, ⟨[], [], [], 0⟩⟩ 0 CachePolicy.Fill
          [((1, 0), ⟨[7]⟩)] 0).cache 1 0 = some ⟨[7]⟩ :=
  ⟨(C4_get_policy_honoring ⟨"p"⟩
      ⟨fun _ _ => none, fun _ _ => Except.error "unused", fun _ => none⟩
      (fun _ => none) ⟨1, ⟨[], [], [], 0⟩⟩ 0 [((1, 0), ⟨[7]⟩)] [] 0).2.1.2.1
      ⟨[7]⟩ (by decide),
   ((C4_get_policy_honoring ⟨"p"⟩
      ⟨fun _ _ => none, fun _ _ => Except.ok [9], fun _ => none⟩
      (fun bs => some ⟨bs⟩) ⟨1, ⟨[⟨0, 1⟩], [], [], 0⟩⟩ 0 [] [] 0).2.1.2.2
      (by decide)).1,
   (C4_get_policy_honoring ⟨"p"⟩
      ⟨fun _ _ => none, fun _ _ => Except.error "unused", fun _ => none⟩
      (fun _ => none) ⟨1, ⟨[], [], [], 0⟩⟩ 0 [((1, 0), ⟨[7]⟩)] [] 0).2.2
      ⟨[7]⟩ (by decide)⟩

/-- C7: every get call increments the block request counter by exactly
one, for every policy, every cache state, and every outcome. -/
theorem C7_get_request_counter (s : SstableStore) (beh : StoreBehavior)
    (dec : Bytes → Option Block) (sst : Sstable) (block_index : Nat)
    (policy : CachePolicy) (cache : BlockCacheState) (counter : Nat) :
    (s.get beh dec sst block_index policy cache counter).counter = counter + 1 := rfl

/-- C10: when the block cache already holds the requested key, get under
Fill and under NotFill returns the cached block with no store operation and
no cache change, independently of the block metas and the store behaviour;
in particular the call succeeds even when the index is out of range for
the block metas, because the bounds check lives inside the fetch closure
that only runs on a miss. -/
theorem C10_get_cache_hit_bypasses_meta (s : SstableStore) (beh : StoreBehavior)
    (dec : Bytes → Option Block) (sst : Sstable) (block_index : Nat)
    (cache : BlockCacheState) (counter : Nat) (b : Block)
    (hc : BlockCache.get cache sst.id block_index = some b) :
    s.get beh dec sst block_index CachePolicy.Fill cache counter
      = ⟨Except.ok b, [], cache, counter + 1⟩
    ∧ s.get beh dec sst block_index CachePolicy.NotFill cache counter
      = ⟨Except.ok b, [], cache, counter + 1⟩ := by
  constructor <;> simp [SstableStore.get, BlockCache.get_or_insert_with, hc]

/-- Witness for C10: the cached key 99 is out of range for an SSTable with
no block metas, yet both policies return the cached block. -/
theorem C10_get_cache_hit_bypasses_meta_witness :
    SstableStore.get ⟨"p"⟩
        ⟨fun _ _ => none, fun _ _ => Except.error "unused", fun _ => none⟩
        (fun _ => none) ⟨7, ⟨[], [], [], 0⟩⟩ 99 CachePolicy.Fill
        [((7, 99), ⟨[4]⟩)] 5
      = ⟨Except.ok ⟨[4]⟩, [], [((7, 99), ⟨[4]⟩)], 6⟩
    ∧ SstableStore.get ⟨"p"⟩
        ⟨fun _ _ => none, fun _ _ => Except.error "unused", fun _ => none⟩
        (fun _ => none) ⟨7, ⟨[], [], [], 0⟩⟩ 99 CachePolicy.NotFill
        [((7, 99), ⟨[4]⟩)] 5
      = ⟨Except.ok ⟨[4]⟩, [], [((7, 99), ⟨[4]⟩)], 6⟩ :=
  C10_get_cache_hit_bypasses_meta ⟨"p"⟩
    ⟨fun _ _ => none, fun _ _ => Except.error "unused", fun _ => none⟩
    (fun _ => none) ⟨7, ⟨[], [], [], 0⟩⟩ 99 [((7, 99), ⟨[4]⟩)] 5 ⟨[4]⟩ (by decide)

/-! ## Path discipline (claim C8) -/

theorem get_sst_meta_path_data (s : SstableStore) (i : Nat) :
    (s.get_sst_meta_path i).data
      = s.path.data ++ '/' :: (sdigits i ++ ['.', 'm', 'e', 't', 'a']) := by
  show ((s.path ++ "/" ++ toString i ++ ".meta")).data = _
  rw [String.data_append, String.data_append, String.data_append, toString_nat_data]
  have h1 : ("/" : String).data = ['/'] := rfl
  have h2 : (".meta" : String).data = ['.', 'm', 'e', 't', 'a'] := rfl
  rw [h1, h2]
  simp [List.append_assoc]

theorem get_sst_data_path_data (s : SstableStore) (i : Nat) :
    (s.get_sst_data_path i).data
      = s.path.data ++ '/' :: (sdigits i ++ ['.', 'd', 'a', 't', 'a']) := by
  show ((s.path ++ "/" ++ toString i ++ ".data")).data = _
  rw [String.data_append, String.data_append, String.data_append, toString_nat_data]
  have h1 : ("/" : String).data = ['/'] := rfl
  have h2 : (".data" : String).data = ['.', 'd', 'a', 't', 'a'] := rfl
  rw [h1, h2]
  simp [List.append_assoc]

/-- C8: the meta and data paths equal the fixed templates over the
configured prefix and the id (so they are deterministic); distinct ids
yield distinct meta paths and distinct data paths; and a meta path never
equals a data path, for any pair of ids. -/
theorem C8_path_discipline (s : SstableStore) (id1 id2 : Nat) :
    s.get_sst_meta_path id1 = s.path ++ "/" ++ toString id1 ++ ".meta"
    ∧ s.get_sst_data_path id1 = s.path ++ "/" ++ toString id1 ++ ".data"
    ∧ (id1 ≠ id2 → s.get_sst_meta_path id1 ≠ s.get_sst_meta_path id2)
    ∧ (id1 ≠ id2 → s.get_sst_data_path id1 ≠ s.get_sst_data_path id2)
    ∧ s.get_sst_meta_path id1 ≠ s.get_sst_data_path id2 := by
  refine ⟨rfl, rfl, ?_, ?_, ?_⟩
  · intro hne heq
    apply hne
    have h := congrArg String.data heq
    rw [get_sst_meta_path_data, get_sst_meta_path_data] at h
    have h2 := List.append_cancel_left h
    injection h2 with _ h3
    obtain ⟨h4, _⟩ := List.append_inj' h3 rfl
    exact sdigits_injective id1 id2 h4
  · intro hne heq
    apply hne
    have h := congrArg String.data heq
    rw [get_sst_data_path_data, get_sst_data_path_data] at h
    have h2 := List.append_cancel_left h
    injection h2 with _ h3
    obtain ⟨h4, _⟩ := List.append_inj' h3 rfl
    exact sdigits_injective id1 id2 h4
  · intro heq
    have h := congrArg String.data heq
    rw [get_sst_meta_path_data, get_sst_data_path_data] at h
    have h2 := List.append_cancel_left h
    injection h2 with _ h3
    obtain ⟨_, h5⟩ := List.append_inj' h3 rfl
    exact absurd h5 (by decide)

/-- Witness for C8: distinct ids 3 and 5 under a concrete prefix give
distinct meta paths and distinct data paths. -/
theorem C8_path_discipline_witness :
    (⟨"hummock_001"⟩ : SstableStore).get_sst_meta_path 3
        ≠ (⟨"hummock_001"⟩ : SstableStore).get_sst_meta_path 5
    ∧ (⟨"hummock_001"⟩ : SstableStore).get_sst_data_path 3
        ≠ (⟨"hummock_001"⟩ : SstableStore).get_sst_data_path 5 :=
  ⟨(C8_path_discipline ⟨"hummock_001"⟩ 3 5).2.2.1 (by decide),
   (C8_path_discipline ⟨"hummock_001"⟩ 3 5).2.2.2.1 (by decide)⟩
